import Mathlib

/-!
Verification of the source-code indexing subsystem of `autocontain`
(src/parser.rs, src/db.rs, src/chat.rs), as a shallow embedding.

A tree-sitter concrete syntax tree is modelled by the mutual inductive
`Node` / `NodeList`: each node carries its tree-sitter `kind`, the source
text of its span (`text`), its start/end rows, and its children, each child
optionally tagged with a tree-sitter field name (`child_by_field_name`).

The SQLite store is modelled by `Db`: the three tables used by the verified
operations (`classes`, `functions`, `function_dependencies`) as lists of
rows in insertion order.  SQLite row ids are modelled as `Int` (the source
casts `last_insert_rowid()` to `i32`; overflow of that cast is unreachable
for the row counts considered here and is not modelled).
-/

namespace Autocontain

mutual

/-- A tree-sitter syntax node: kind, source text of its span, start row,
end row, and the list of children. -/
inductive Node where
  | mk (kind : String) (text : String) (startRow : Int) (endRow : Int)
      (children : NodeList)

/-- Children of a node, each optionally tagged with its tree-sitter field
name (used by `child_by_field_name`). -/
inductive NodeList where
  | nil
  | cons (tag : Option String) (node : Node) (rest : NodeList)

end

def Node.kind : Node → String
  | .mk k _ _ _ _ => k

def Node.text : Node → String
  | .mk _ t _ _ _ => t

def Node.startRow : Node → Int
  | .mk _ _ s _ _ => s

def Node.endRow : Node → Int
  | .mk _ _ _ e _ => e

def Node.children : Node → NodeList
  | .mk _ _ _ _ cs => cs

/-- View of a `NodeList` as an ordinary list of (field tag, node) pairs. -/
def NodeList.toList : NodeList → List (Option String × Node)
  | .nil => []
  | .cons tag n rest => (tag, n) :: rest.toList

/-- Model of tree-sitter `child_by_field_name`: the first child whose field
tag is the given name. -/
def NodeList.findByField : NodeList → String → Option Node
  | .nil, _ => none
  | .cons tag n rest, f => if tag = some f then some n else rest.findByField f

/-- Model of `node.child_by_field_name(name)`. -/
def Node.childByFieldName (n : Node) (f : String) : Option Node :=
  n.children.findByField f

/-! ## Data model (src/models.rs) -/

/-- `models.rs` `Class`. -/
structure Class where
  id : Option Int
  repo_id : Int
  name : String
  attributes : Option String
  file_location : String
  start_line : Int
  end_line : Int
  docstring : Option String
deriving DecidableEq, Repr

/-- `models.rs` `Function`. -/
structure Function where
  id : Option Int
  repo_id : Int
  class_id : Option Int
  name : String
  parameters : Option String
  return_type : Option String
  file_location : String
  start_line : Int
  end_line : Int
  docstring : Option String
deriving DecidableEq, Repr

/-- A row of the `function_dependencies` table (db.rs `initialize_db`):
"`function_name` calls `dependency`", keyed by the caller's name and
optional owning class id. -/
structure DependencyEdge where
  function_name : String
  dependency : String
  class_id : Option Int
deriving DecidableEq, Repr

/-- The SQLite store: the three tables used by the verified operations, as
lists of rows in insertion order.  (The `repositories` table is written by
`insert_repository` only and read by none of the verified operations, so it
is omitted.) -/
structure Db where
  classes : List Class
  functions : List Function
  deps : List DependencyEdge
deriving DecidableEq, Repr

/-- The empty store, as produced by `initialize_db` on a fresh file. -/
def Db.empty : Db := ⟨[], [], []⟩

/-! ## Store operations (src/db.rs)

SQLite assigns to a fresh row of a table with an `INTEGER PRIMARY KEY` the
rowid `max existing rowid + 1`; `last_insert_rowid()` then returns exactly
that id.  In the source, `extract_classes_and_functions` reads
`last_insert_rowid()` immediately after `insert_class`, with no insert in
between, so the id it observes is the id assigned to the class row. -/

/-- The rowid SQLite assigns to the next `classes` row: max existing id + 1. -/
def Db.nextClassId (db : Db) : Int :=
  (db.classes.foldl (fun m c => max m (c.id.getD 0)) 0) + 1

/-- The rowid SQLite assigns to the next `functions` row. -/
def Db.nextFunctionId (db : Db) : Int :=
  (db.functions.foldl (fun m f => max m (f.id.getD 0)) 0) + 1

/-- db.rs `insert_class`: appends the class row, with its assigned rowid. -/
def insert_class (db : Db) (c : Class) : Db :=
  { db with classes := db.classes ++ [{ c with id := some db.nextClassId }] }

/-- db.rs `insert_function`: appends the function row, with its assigned
rowid. -/
def insert_function (db : Db) (f : Function) : Db :=
  { db with functions := db.functions ++ [{ f with id := some db.nextFunctionId }] }

/-- db.rs `insert_dependencies`: one `function_dependencies` row per element
of `dependencies`, each keyed by `function_name` and `class_id`. -/
def insert_dependencies (db : Db) (function_name : String) (class_id : Option Int)
    (dependencies : List String) : Db :=
  { db with
    deps := db.deps ++ dependencies.map (fun d => ⟨function_name, d, class_id⟩) }

/-- db.rs `get_dependencies`: rows of `function_dependencies` whose
`function_name` equals the argument and whose `class_id` equals the
argument exactly (the SQL uses `class_id = ?2` when the argument is
`Some`, and `class_id IS NULL` when it is `None`; both branches are the
exact `Option` equality below), each returned as its
`(dependency, class_id)` pair, in table order. -/
def get_dependencies (db : Db) (function_name : String) (class_id : Option Int) :
    List (String × Option Int) :=
  (db.deps.filter (fun r => r.function_name = function_name ∧ r.class_id = class_id)).map
    (fun r => (r.dependency, r.class_id))

/-- db.rs `get_function_description`: `query_row` reads the first `functions`
row matching the name and the exact optional class id and extracts its
`docstring` column.  Both failure modes — no matching row
(`QueryReturnedNoRows`) and a NULL `docstring` in the first matching row
(`InvalidColumnType`) — surface as `rusqlite::Error`; the sole caller
(`build_flow`) recovers from either identically, so both are modelled as
`none`. -/
def get_function_description (db : Db) (function_name : String)
    (class_id : Option Int) : Option String :=
  (db.functions.find? (fun f => f.name = function_name ∧ f.class_id = class_id)).bind
    (fun f => f.docstring)

/-! ## Entity and dependency extraction (src/parser.rs)

String helpers model the Rust string primitives used by parser.rs:
`trim_matches(p)` strips every leading and trailing matching character,
`trim_end_matches(c)` strips every trailing occurrence of `c`, `split`
on a single character agrees with `String.splitOn`, and Rust `trim`
agrees with `String.trim` on the whitespace considered here. -/

/-- Rust `str::trim_matches(p)`: strip all leading and all trailing
characters satisfying `p`. -/
def trimMatches (p : Char → Bool) (s : String) : String :=
  String.mk (((s.toList.dropWhile p).reverse.dropWhile p).reverse)

/-- Rust `str::trim_end_matches(c)`: strip all trailing occurrences of `c`. -/
def trimEndMatches (c : Char) (s : String) : String :=
  String.mk ((s.toList.reverse.dropWhile (· == c)).reverse)

/-- Rust `str::trim`: strip leading and trailing whitespace. -/
def rust_trim (s : String) : String :=
  trimMatches Char.isWhitespace s

/-- Character-list worker for `split_on_char`: `cur` holds the reversed
characters of the piece being accumulated. -/
def split_on_char_aux (sep : Char) : List Char → List Char → List String
  | [], cur => [String.mk cur.reverse]
  | ch :: rest, cur =>
    if ch = sep then String.mk cur.reverse :: split_on_char_aux sep rest []
    else split_on_char_aux sep rest (ch :: cur)

/-- Rust `str::split(sep)` for a single-character separator: the pieces
between occurrences of `sep`, always at least one piece (the empty string
splits to one empty piece). -/
def split_on_char (sep : Char) (s : String) : List String :=
  split_on_char_aux sep s.toList []

/-- Rust `Vec::join(sep)`. -/
def join_with (sep : String) : List String → String
  | [] => ""
  | [x] => x
  | x :: rest => x ++ sep ++ join_with sep rest

/-- The `for child in node.children` search loops of parser.rs: first child
of the given kind. -/
def NodeList.findByKind : NodeList → String → Option Node
  | .nil, _ => none
  | .cons _ c rest, k => if c.kind = k then some c else rest.findByKind k

/-- parser.rs `extract_identifier`: text of the first direct child of kind
`identifier`; the search never descends below direct children. -/
def extract_identifier (node : Node) : Option String :=
  (node.children.findByKind "identifier").map Node.text

mutual

/-- parser.rs `extract_docstring`'s nested `find_docstring`, applied to a
node: search its children in order (see `find_docstring_list`). -/
def find_docstring : Node → Option String
  | .mk _ _ _ _ cs => find_docstring_list cs

/-- The child loop of `find_docstring`: if the child is a `string` node,
return its text with surrounding `"` stripped; otherwise search inside the
child before moving to the next sibling. -/
def find_docstring_list : NodeList → Option String
  | .nil => none
  | .cons _ c rest =>
    if c.kind = "string" then some (trimMatches (· == '"') c.text)
    else
      match find_docstring c with
      | some s => some s
      | none => find_docstring_list rest

end

/-- parser.rs `extract_docstring`. -/
def extract_docstring (node : Node) : Option String :=
  find_docstring node

/-- parser.rs `extract_parameters`: text of the first direct child of kind
`parameters`, with all leading/trailing `(` and `)` stripped. -/
def extract_parameters (node : Node) : Option String :=
  (node.children.findByKind "parameters").map
    (fun c => trimMatches (fun ch => ch == '(' || ch == ')') c.text)

/-- The per-parameter closure of parser.rs `extract_attributes`: trim the
piece, split it on `:`, take the part before the first `:` as the name and
the part between the first and second `:` (trimmed, with trailing `)`
stripped, trimmed again) as the type, defaulting to `"unknown"` when no
`:` is present, and render `"name: type"`.  (Rust `split` always yields at
least one piece, so the `[0]` index cannot panic.) -/
def parse_init_param (param : String) : String :=
  let param := rust_trim param
  let parts := split_on_char ':' param
  let param_name := rust_trim (parts.headD "")
  let param_type :=
    if parts.length > 1 then rust_trim (trimEndMatches ')' (rust_trim (parts.getD 1 "")))
    else "unknown"
  param_name ++ ": " ++ param_type

/-- The attribute pairs contributed by a constructor parameter-list text:
split on every comma, skip the first piece (the implicit `self`), and
render each remaining piece with `parse_init_param`.  The split is not
nesting-aware, exactly as in the source. -/
def init_params_to_attributes (params : String) : List String :=
  ((split_on_char ',' params).drop 1).map parse_init_param

mutual

/-- The recursive `traverse` of parser.rs `extract_attributes`: when the
node is a `function_definition` named `__init__` with a parameters child,
append its attribute pairs to the accumulator; then recurse into all
children. -/
def attributes_traverse : Node → List String → List String
  | .mk k t a b cs, acc =>
    let acc :=
      if k = "function_definition" then
        match extract_identifier (.mk k t a b cs) with
        | some fname =>
          if fname = "__init__" then
            match extract_parameters (.mk k t a b cs) with
            | some params => acc ++ init_params_to_attributes params
            | none => acc
          else acc
        | none => acc
      else acc
    attributes_traverse_list cs acc

/-- Child loop of `attributes_traverse`. -/
def attributes_traverse_list : NodeList → List String → List String
  | .nil, acc => acc
  | .cons _ c rest, acc => attributes_traverse_list rest (attributes_traverse c acc)

end

/-- parser.rs `extract_attributes`: traverse the class subtree collecting
constructor attributes; `Some` of the `", "`-join when any were found. -/
def extract_attributes (node : Node) : Option String :=
  let attributes := attributes_traverse node []
  if attributes.isEmpty then none else some (join_with ", " attributes)

/-- The callee recognized by parser.rs `extract_dependencies` at one node:
for a `call` node whose `function` field is a plain `identifier`, the
identifier's text; otherwise nothing (member-access and dynamic call
targets are skipped). -/
def call_target (n : Node) : Option String :=
  if n.kind = "call" then
    match n.childByFieldName "function" with
    | some fn => if fn.kind = "identifier" then some fn.text else none
    | none => none
  else none

mutual

/-- The recursive `traverse` of parser.rs `extract_dependencies`,
accumulating the set of called identifiers.  The Rust `HashSet::insert` is
modelled by `List.insert` (add only if absent); the iteration order of the
final `HashSet` is unspecified in the source, and this list is one
concrete representative of it. -/
def dependencies_traverse : Node → List String → List String
  | .mk k t a b cs, acc =>
    let acc :=
      match call_target (.mk k t a b cs) with
      | some callee => acc.insert callee
      | none => acc
    dependencies_traverse_list cs acc

/-- Child loop of `dependencies_traverse`. -/
def dependencies_traverse_list : NodeList → List String → List String
  | .nil, acc => acc
  | .cons _ c rest, acc => dependencies_traverse_list rest (dependencies_traverse c acc)

end

/-- parser.rs `extract_dependencies`: the deduplicated called identifiers
of a function subtree. -/
def extract_dependencies (node : Node) : List String :=
  dependencies_traverse node []

mutual

/-- Number of `call` nodes in a subtree whose callee is the plain
identifier `d` (specification device for counting syntactically identical
calls; not itself part of the source). -/
def count_calls : Node → String → Nat
  | .mk k t a b cs, d =>
    (if call_target (.mk k t a b cs) = some d then 1 else 0) + count_calls_list cs d

/-- Child summation of `count_calls`. -/
def count_calls_list : NodeList → String → Nat
  | .nil, _ => 0
  | .cons _ c rest, d => count_calls c d + count_calls_list rest d

end

/-- parser.rs `extract_return_type`: text of the `return_type` field child,
when present.  (The source's `unwrap_or("unknown")` guards a UTF-8 decode
that cannot fail in this model.) -/
def extract_return_type (node : Node) : Option String :=
  (node.childByFieldName "return_type").map Node.text

/-- parser.rs `create_class_struct`. -/
def create_class_struct (node : Node) (repo_id : Int) (file_path : String) : Class :=
  { id := none
    repo_id := repo_id
    name := (extract_identifier node).getD "<unknown>"
    attributes := extract_attributes node
    file_location := file_path
    start_line := node.startRow
    end_line := node.endRow
    docstring := extract_docstring node }

/-- parser.rs `create_function_struct`. -/
def create_function_struct (node : Node) (repo_id : Int) (class_id : Option Int)
    (file_path : String) : Function :=
  { id := none
    repo_id := repo_id
    class_id := class_id
    name := (extract_identifier node).getD "<unknown>"
    parameters := extract_parameters node
    return_type := extract_return_type node
    file_location := file_path
    start_line := node.startRow
    end_line := node.endRow
    docstring := extract_docstring node }

/-- parser.rs `process_function_definition`: build the `Function` row,
insert it, then persist its extracted dependencies.

Source defect (claim C2): line 71 of parser.rs invokes `insert_dependencies`
with only `(conn, &func_name, &dependencies)`, omitting the `class_id`
argument that `insert_dependencies` (db.rs line 110) requires, so the crate
does not compile as written.  Every other consumer of the edge table
(`get_dependencies`, `build_flow`) keys edges by the enclosing function's
`(name, class_id)`; this embedding threads `class_id` through, which is the
evident intent of the signature. -/
def process_function_definition (node : Node) (db : Db) (repo_id : Int)
    (class_id : Option Int) (file_path : String) : Db :=
  let func := create_function_struct node repo_id class_id file_path
  let db := insert_function db func
  let func_name := func.name
  let dependencies := extract_dependencies node
  insert_dependencies db func_name class_id dependencies

mutual

/-- The recursive `traverse` of parser.rs `process_class_methods`: process
every `function_definition` node anywhere in the class subtree as a method
of `class_id`, then recurse into all children (including those of the
function node just processed). -/
def class_methods_traverse : Node → Db → Int → Int → String → Db
  | .mk k t a b cs, db, repo_id, class_id, file_path =>
    let db :=
      if k = "function_definition" then
        process_function_definition (.mk k t a b cs) db repo_id (some class_id) file_path
      else db
    class_methods_traverse_list cs db repo_id class_id file_path

/-- Child loop of `class_methods_traverse`. -/
def class_methods_traverse_list : NodeList → Db → Int → Int → String → Db
  | .nil, db, _, _, _ => db
  | .cons _ c rest, db, repo_id, class_id, file_path =>
    class_methods_traverse_list rest
      (class_methods_traverse c db repo_id class_id file_path) repo_id class_id file_path

end

/-- parser.rs `process_class_methods`: start the traversal at the class
node itself. -/
def process_class_methods (class_node : Node) (db : Db) (repo_id : Int)
    (class_id : Int) (file_path : String) : Db :=
  class_methods_traverse class_node db repo_id class_id file_path

/-- The child loop of parser.rs `extract_classes_and_functions` over the
direct children of the module root: a `class_definition` child is inserted
as a `Class` row and its subtree processed for methods with the id the
insert assigned (`last_insert_rowid()`, read immediately after the insert,
is `db.nextClassId` of the pre-insert store); a `function_definition` child
is processed as a free function (`class_id = none`); every other child is
ignored.  Nothing recurses below direct children here. -/
def extract_children_loop : NodeList → Db → Int → String → Db
  | .nil, db, _, _ => db
  | .cons _ node rest, db, repo_id, file_path =>
    let db :=
      if node.kind = "class_definition" then
        let cls := create_class_struct node repo_id file_path
        let class_id := db.nextClassId
        let db := insert_class db cls
        process_class_methods node db repo_id class_id file_path
      else if node.kind = "function_definition" then
        process_function_definition node db repo_id none file_path
      else db
    extract_children_loop rest db repo_id file_path

/-- parser.rs `extract_classes_and_functions`: iterate the direct children
of the module root. -/
def extract_classes_and_functions (root : Node) (db : Db) (repo_id : Int)
    (file_path : String) : Db :=
  extract_children_loop root.children db repo_id file_path

/-- parser.rs `parse_file` after the tree-sitter parse: extraction on the
file's module root. -/
def parse_file (root : Node) (db : Db) (repo_id : Int) (file_path : String) : Db :=
  extract_classes_and_functions root db repo_id file_path

/-- parser.rs `parse_repository` after the directory walk: the `.py` files
of the repository, as (path, parsed module root) pairs in walk order, are
parsed sequentially against the same store and repo id. -/
def parse_repository (files : List (String × Node)) (db : Db) (repo_id : Int) : Db :=
  files.foldl (fun db pf => parse_file pf.2 db repo_id pf.1) db

/-! ## Flow reconstruction (src/chat.rs)

`build_flow` mutates a visited set and an output string and recurses over
dependency edges fetched from the store.  The embedding passes that state
explicitly (`FlowState`), and additionally records each emitted
`(name, class_id, level, description)` as a `FlowEntry` so that theorems
can speak about what was emitted; the `flow` string is built by exactly
the `push_str` of the source at each visit.

The source recursion has no explicit bound; its termination rests on the
visited set.  The embedding makes the recursion structural on a `fuel`
argument standing for the call stack, with `none` meaning the fuel ran
out; the sufficiency theorem below shows that fuel
`(dep_pairs db).card + 1` is never exhausted, which is the termination
property of the source recursion. -/

/-- Rust `str::repeat`. -/
def string_repeat (s : String) (n : Nat) : String :=
  String.join (List.replicate n s)

/-- One emitted flow item: function name, class id, recursion depth, and
the description printed for it. -/
structure FlowEntry where
  name : String
  class_id : Option Int
  level : Nat
  description : String
deriving DecidableEq, Repr

/-- The state `build_flow` mutates: the visited set (membership only; the
Rust `HashSet` is unordered), the output string, and the instrumentation
list of emitted items in emission order. -/
structure FlowState where
  visited : List (String × Option Int)
  flow : String
  entries : List FlowEntry
deriving DecidableEq, Repr

/-- The text `build_flow` pushes for one visited function (chat.rs lines
120–127): indent of two spaces per level, the name between backticks, and
the purpose line indented two spaces further. -/
def flow_line (name : String) (level : Nat) (description : String) : String :=
  string_repeat "  " level ++ "- Function: `" ++ name ++ "`\n" ++
    string_repeat "  " level ++ "  - Purpose: " ++ description ++ "\n"

/-- The `for (dependency, dep_class_id) in dependencies` loop of
`build_flow`: recurse (via `step`) on each fetched edge at `level + 1`,
threading the state, and stop at the first exhausted recursion. -/
def build_flow_deps (step : String → Option Int → Nat → FlowState → Option FlowState) :
    List (String × Option Int) → Nat → FlowState → Option FlowState
  | [], _, st => some st
  | (d, dc) :: rest, level, st =>
    match step d dc (level + 1) st with
    | none => none
    | some st' => build_flow_deps step rest level st'

/-- chat.rs `build_flow`: return at once if the `(name, class_id)` pair is
already visited; otherwise mark it visited, emit its line with the fetched
docstring (placeholder `"No description available"` when the lookup
fails), fetch its dependency edges, and recurse on each at the next
level. -/
def build_flow (db : Db) : Nat → String → Option Int → Nat → FlowState → Option FlowState
  | 0, function_name, class_id, _, st =>
    if (function_name, class_id) ∈ st.visited then some st else none
  | fuel + 1, function_name, class_id, level, st =>
    if (function_name, class_id) ∈ st.visited then some st
    else
      let description :=
        (get_function_description db function_name class_id).getD "No description available"
      let st : FlowState :=
        ⟨(function_name, class_id) :: st.visited,
          st.flow ++ flow_line function_name level description,
          st.entries ++ [⟨function_name, class_id, level, description⟩]⟩
      let dependencies := get_dependencies db function_name class_id
      build_flow_deps (fun n c l s => build_flow db fuel n c l s) dependencies level st

/-- All `(dependency, class_id)` pairs occurring in the edge table: every
pair `build_flow` ever recurses on lies in this set. -/
def dep_pairs (db : Db) : Finset (String × Option Int) :=
  (db.deps.map (fun r => (r.dependency, r.class_id))).toFinset

/-- Fuel that the sufficiency theorem shows is never exhausted. -/
def build_flow_fuel (db : Db) : Nat :=
  (dep_pairs db).card + 1

/-- `build_flow` as its callers invoke it: fresh visited set, empty output,
depth 0. -/
def build_flow_top (db : Db) (function_name : String) (class_id : Option Int) :
    Option FlowState :=
  build_flow db (build_flow_fuel db) function_name class_id 0 ⟨[], "", []⟩

/-- chat.rs `format_program_flow`: seed the output with the header line and
reconstruct from the conventional entry point `"main"` with no class. -/
def format_program_flow (db : Db) : Option String :=
  (build_flow db (build_flow_fuel db) "main" none 0
    ⟨[], "The program follows this logic flow:\n\n", []⟩).map FlowState.flow

/-! ## Specification-side definitions -/

/-- The `(name, class_id)` key of an emitted item. -/
def FlowEntry.pair (e : FlowEntry) : String × Option Int :=
  (e.name, e.class_id)

/-- The text a run of emitted items contributes to the output string. -/
def flow_of : List FlowEntry → String
  | [] => ""
  | e :: rest => flow_line e.name e.level e.description ++ flow_of rest

/-- One step of the call graph stored in the edge table, as `build_flow`
walks it: from the pair `p` there is an edge row keyed by `p`, and the
successor is that row's `(dependency, class_id)` pair (the row's own
`class_id`, which the query constrained to equal `p`'s). -/
def calls_edge (db : Db) (p q : String × Option Int) : Prop :=
  ∃ r ∈ db.deps, r.function_name = p.1 ∧ r.class_id = p.2 ∧ q = (r.dependency, r.class_id)

/-- The call graph reachable from `p` contains a cycle: some pair reachable
from `p` (possibly `p` itself) directly or transitively calls itself. -/
def has_cycle_from (db : Db) (p : String × Option Int) : Prop :=
  ∃ q, Relation.ReflTransGen (calls_edge db) p q ∧ Relation.TransGen (calls_edge db) q q

/-- Modelled from the spec wording of claim C9 for comparison with the
code: a line `<indent>- Function: <name>` — name not wrapped in backticks —
followed by `<indent>  - Purpose: <description>`, two spaces of indent per
level. -/
def claimed_flow_line (name : String) (level : Nat) (description : String) : String :=
  string_repeat "  " level ++ "- Function: " ++ name ++ "\n" ++
    string_repeat "  " level ++ "  - Purpose: " ++ description ++ "\n"

/-- The claim-form output text over a run of emitted items (see
`claimed_flow_line`). -/
def claimed_flow_text : List FlowEntry → String
  | [] => ""
  | e :: rest => claimed_flow_line e.name e.level e.description ++ claimed_flow_text rest

/-- The direct `function_definition` children of a module root: exactly the
nodes the `"function_definition"` arm of `extract_classes_and_functions`
fires on. -/
def direct_function_definitions (cs : NodeList) : List Node :=
  (cs.toList.map Prod.snd).filter (fun nd => nd.kind = "function_definition")

/-- Referential consistency (spec §8): every `Function` row carrying a class
id refers to an existing `Class` row of the same repository. -/
def ref_consistent (db : Db) : Prop :=
  ∀ f ∈ db.functions, ∀ cid : Int, f.class_id = some cid →
    ∃ c ∈ db.classes, c.id = some cid ∧ c.repo_id = f.repo_id

/-- How one recursive step of flow reconstruction transforms the state: it
appends a run `new` of emitted items to the output list, pushes exactly
their lines onto the output string, marks exactly their keys visited, and
those keys are pairwise distinct and were all unvisited before. -/
def StepShape (step : String → Option Int → Nat → FlowState → Option FlowState) : Prop :=
  ∀ n c l s s', step n c l s = some s' →
    ∃ new, s'.entries = s.entries ++ new ∧
      s'.flow = s.flow ++ flow_of new ∧
      s'.visited = (new.map FlowEntry.pair).reverse ++ s.visited ∧
      (new.map FlowEntry.pair).Nodup ∧
      ∀ p ∈ new.map FlowEntry.pair, p ∉ s.visited

/-! ## Concrete sample trees and stores used as witnesses -/

/-- An identifier leaf. -/
def ident_node (s : String) : Node := .mk "identifier" s 0 0 .nil

/-- A call expression whose `function` field is the plain identifier `s`. -/
def call_node (s : String) : Node :=
  .mk "call" (s ++ "()") 0 0 (.cons (some "function") (ident_node s) .nil)

/-- A function definition named `name` with the given body statements. -/
def function_node (name : String) (body : NodeList) : Node :=
  .mk "function_definition" "" 0 0
    (.cons none (ident_node name) (.cons none (.mk "block" "" 0 0 body) .nil))

/-- A function body containing two syntactically identical calls to `g`. -/
def two_calls_fn : Node :=
  function_node "f" (.cons none (call_node "g") (.cons none (call_node "g") .nil))

/-- A module whose single top-level function contains a nested function
definition (a closure) named `inner`, outside any class subtree. -/
def closure_module : Node :=
  .mk "module" "" 0 0
    (.cons none (function_node "outer" (.cons none (function_node "inner" .nil) .nil))
      .nil)

/-- A class `C` whose constructor parameter text is `(self, x: int, y: str)`. -/
def attrs_class : Node :=
  .mk "class_definition" "" 0 0
    (.cons none (ident_node "C")
      (.cons none (.mk "block" "" 0 0
        (.cons none (.mk "function_definition" "" 0 0
          (.cons none (ident_node "__init__")
            (.cons none (.mk "parameters" "(self, x: int, y: str)" 0 0 .nil)
              (.cons none (.mk "block" "" 0 0 .nil) .nil)))) .nil)) .nil))

/-- A class `D` whose constructor parameter `z` has no type annotation. -/
def attrs_class_unannotated : Node :=
  .mk "class_definition" "" 0 0
    (.cons none (ident_node "D")
      (.cons none (.mk "block" "" 0 0
        (.cons none (.mk "function_definition" "" 0 0
          (.cons none (ident_node "__init__")
            (.cons none (.mk "parameters" "(self, z)" 0 0 .nil)
              (.cons none (.mk "block" "" 0 0 .nil) .nil)))) .nil)) .nil))

/-- A module containing one class with one method. -/
def method_module : Node := .mk "module" "" 0 0 (.cons none attrs_class .nil)

/-- A function definition with no identifier among its direct children but
an identifier nested deeper inside. -/
def nameless_fn : Node :=
  .mk "function_definition" "" 0 0
    (.cons none (.mk "block" "" 0 0 (.cons none (ident_node "nested") .nil)) .nil)

/-- A store whose single edge row makes `main` call itself. -/
def cyc_db : Db := ⟨[], [], [⟨"main", "main", none⟩]⟩

/-! ## Lemmas about flow reconstruction -/

theorem flow_of_append (l₁ l₂ : List FlowEntry) :
    flow_of (l₁ ++ l₂) = flow_of l₁ ++ flow_of l₂ := by
  induction l₁ with
  | nil => simp [flow_of]
  | cons e rest ih => simp [flow_of, ih, String.append_assoc]

theorem build_flow_deps_shape (step) (h : StepShape step) :
    ∀ deps level st st', build_flow_deps step deps level st = some st' →
      ∃ new, st'.entries = st.entries ++ new ∧
        st'.flow = st.flow ++ flow_of new ∧
        st'.visited = (new.map FlowEntry.pair).reverse ++ st.visited ∧
        (new.map FlowEntry.pair).Nodup ∧
        ∀ p ∈ new.map FlowEntry.pair, p ∉ st.visited := by
  intro deps
  induction deps with
  | nil =>
    intro level st st' hst
    simp only [build_flow_deps, Option.some.injEq] at hst
    subst hst
    exact ⟨[], by simp [flow_of]⟩
  | cons hd tl ih =>
    intro level st st' hst
    obtain ⟨d, dc⟩ := hd
    simp only [build_flow_deps] at hst
    cases hstep : step d dc (level + 1) st with
    | none => rw [hstep] at hst; cases hst
    | some st1 =>
      rw [hstep] at hst
      obtain ⟨new1, he1, hf1, hv1, hn1, hd1⟩ := h _ _ _ _ _ hstep
      obtain ⟨new2, he2, hf2, hv2, hn2, hd2⟩ := ih _ _ _ hst
      refine ⟨new1 ++ new2, ?_, ?_, ?_, ?_, ?_⟩
      · rw [he2, he1, List.append_assoc]
      · rw [hf2, hf1, flow_of_append, String.append_assoc]
      · rw [hv2, hv1, List.map_append, List.reverse_append, List.append_assoc]
      · rw [List.map_append]
        refine hn1.append hn2 (fun p hp1 hp2 => ?_)
        exact hd2 p hp2 (by
          rw [hv1]
          exact List.mem_append_left _ (List.mem_reverse.mpr hp1))
      · intro p hp
        rw [List.map_append] at hp
        rcases List.mem_append.mp hp with h1 | h2
        · exact hd1 p h1
        · intro hpv
          exact hd2 p h2 (by rw [hv1]; exact List.mem_append_right _ hpv)

theorem build_flow_shape (db : Db) : ∀ fuel, StepShape (build_flow db fuel) := by
  intro fuel
  induction fuel with
  | zero =>
    intro n c l st st' hst
    simp only [build_flow] at hst
    by_cases hv : (n, c) ∈ st.visited
    · rw [if_pos hv] at hst
      cases hst
      exact ⟨[], by simp [flow_of]⟩
    · rw [if_neg hv] at hst
      cases hst
  | succ fuel ih =>
    intro n c l st st' hst
    simp only [build_flow] at hst
    by_cases hv : (n, c) ∈ st.visited
    · rw [if_pos hv] at hst
      cases hst
      exact ⟨[], by simp [flow_of]⟩
    · rw [if_neg hv] at hst
      obtain ⟨new2, he2, hf2, hv2, hn2, hd2⟩ := build_flow_deps_shape _ ih _ _ _ _ hst
      refine ⟨⟨n, c, l,
        (get_function_description db n c).getD "No description available"⟩ :: new2,
        ?_, ?_, ?_, ?_, ?_⟩
      · rw [he2]; simp [List.append_assoc]
      · rw [hf2]; simp [flow_of, String.append_assoc]
      · rw [hv2]; simp [FlowEntry.pair, List.append_assoc]
      · refine List.nodup_cons.mpr ⟨fun hmem => ?_, hn2⟩
        exact hd2 _ hmem (by simp [FlowEntry.pair])
      · intro p hp
        rcases List.mem_cons.mp hp with h1 | h2
        · subst h1; exact hv
        · intro hpv
          exact hd2 p h2 (by simp [hpv])

theorem build_flow_deps_isSome (db : Db) (step) (hshape : StepShape step) (k : Nat)
    (hsome : ∀ n c l s, (n, c) ∈ dep_pairs db →
      (dep_pairs db \ s.visited.toFinset).card ≤ k → (step n c l s).isSome) :
    ∀ deps level st, (∀ p ∈ deps, p ∈ dep_pairs db) →
      (dep_pairs db \ st.visited.toFinset).card ≤ k →
      (build_flow_deps step deps level st).isSome := by
  intro deps
  induction deps with
  | nil => intro level st _ _; simp [build_flow_deps]
  | cons hd tl ih =>
    intro level st hmem hcard
    obtain ⟨d, dc⟩ := hd
    have h1 : (step d dc (level + 1) st).isSome :=
      hsome d dc _ st (hmem _ (by simp)) hcard
    obtain ⟨st1, hst1⟩ := Option.isSome_iff_exists.mp h1
    simp only [build_flow_deps, hst1]
    refine ih level st1 (fun p hp => hmem p (by simp [hp])) ?_
    obtain ⟨new, _, _, hv1, _, _⟩ := hshape _ _ _ _ _ hst1
    refine le_trans (Finset.card_le_card
      (Finset.sdiff_subset_sdiff (le_refl _) ?_)) hcard
    intro p hp
    rw [List.mem_toFinset] at hp ⊢
    rw [hv1]
    exact List.mem_append_right _ hp

theorem build_flow_isSome (db : Db) : ∀ fuel n c l st,
    ((n, c) ∈ st.visited ∨
      (dep_pairs db \ ((n, c) :: st.visited).toFinset).card < fuel) →
    (build_flow db fuel n c l st).isSome := by
  intro fuel
  induction fuel with
  | zero =>
    intro n c l st h
    rcases h with h | h
    · simp [build_flow, h]
    · omega
  | succ fuel ih =>
    intro n c l st h
    by_cases hv : (n, c) ∈ st.visited
    · simp [build_flow, hv]
    · have hcard : (dep_pairs db \ ((n, c) :: st.visited).toFinset).card ≤ fuel := by
        rcases h with h | h
        · exact absurd h hv
        · omega
      simp only [build_flow, if_neg hv]
      refine build_flow_deps_isSome db _ (build_flow_shape db fuel) fuel ?_ _ _ _ ?_ ?_
      · intro n' c' l' s hmem hcard'
        by_cases hv' : (n', c') ∈ s.visited
        · exact ih n' c' l' s (Or.inl hv')
        · refine ih n' c' l' s (Or.inr ?_)
          rw [List.toFinset_cons, Finset.sdiff_insert]
          have hmem2 : (n', c') ∈ dep_pairs db \ s.visited.toFinset :=
            Finset.mem_sdiff.mpr ⟨hmem, fun hin => hv' (List.mem_toFinset.mp hin)⟩
          have herase := Finset.card_erase_of_mem hmem2
          have hpos : 0 < (dep_pairs db \ s.visited.toFinset).card :=
            Finset.card_pos.mpr ⟨_, hmem2⟩
          omega
      · intro p hp
        simp only [get_dependencies, List.mem_map, List.mem_filter] at hp
        obtain ⟨r, ⟨hr, _⟩, hpr⟩ := hp
        simp only [dep_pairs, List.mem_toFinset, List.mem_map]
        exact ⟨r, hr, hpr⟩
      · exact hcard

/-- The visit of an unvisited pair is emitted: its item, at the call's
level, is in the final output list. -/
theorem build_flow_entry_mem (db : Db) (fuel : Nat) (n : String) (c : Option Int)
    (l : Nat) (st st' : FlowState)
    (hst : build_flow db (fuel + 1) n c l st = some st')
    (hv : (n, c) ∉ st.visited) :
    (⟨n, c, l, (get_function_description db n c).getD "No description available"⟩ :
      FlowEntry) ∈ st'.entries := by
  simp only [build_flow, if_neg hv] at hst
  obtain ⟨new2, he2, _, _, _, _⟩ :=
    build_flow_deps_shape _ (build_flow_shape db fuel) _ _ _ _ hst
  rw [he2]
  exact List.mem_append_left _ (by simp)

/-! ## Lemmas about dependency extraction -/

mutual

theorem dependencies_traverse_nodup : ∀ (n : Node) (acc : List String),
    acc.Nodup → (dependencies_traverse n acc).Nodup
  | .mk k t a b cs, acc, hacc => by
    rw [dependencies_traverse]
    cases h : call_target (Node.mk k t a b cs) with
    | none => simp only [h]; exact dependencies_traverse_list_nodup cs acc hacc
    | some callee => simp only [h]; exact dependencies_traverse_list_nodup cs _ hacc.insert

theorem dependencies_traverse_list_nodup : ∀ (cs : NodeList) (acc : List String),
    acc.Nodup → (dependencies_traverse_list cs acc).Nodup
  | .nil, _, hacc => hacc
  | .cons _ c rest, acc, hacc =>
    dependencies_traverse_list_nodup rest _ (dependencies_traverse_nodup c acc hacc)

end

mutual

theorem mem_dependencies_traverse : ∀ (n : Node) (acc : List String) (d : String),
    d ∈ dependencies_traverse n acc ↔ d ∈ acc ∨ 0 < count_calls n d
  | .mk k t a b cs, acc, d => by
    rw [dependencies_traverse, count_calls]
    cases h : call_target (Node.mk k t a b cs) with
    | none =>
      simp only [h, reduceCtorEq, if_false]
      rw [mem_dependencies_traverse_list cs acc d, Nat.zero_add]
    | some callee =>
      simp only [h]
      rw [mem_dependencies_traverse_list cs _ d, List.mem_insert_iff]
      by_cases hcd : callee = d
      · subst hcd; simp
      · have : ¬ (some callee = some d) := by simp [hcd]
        simp [this, Ne.symm hcd]

theorem mem_dependencies_traverse_list : ∀ (cs : NodeList) (acc : List String) (d : String),
    d ∈ dependencies_traverse_list cs acc ↔ d ∈ acc ∨ 0 < count_calls_list cs d
  | .nil, acc, d => by simp [dependencies_traverse_list, count_calls_list]
  | .cons _ c rest, acc, d => by
    rw [dependencies_traverse_list, count_calls_list,
      mem_dependencies_traverse_list rest _ d, mem_dependencies_traverse c acc d]
    constructor
    · rintro ((h | h) | h)
      · exact Or.inl h
      · exact Or.inr (by omega)
      · exact Or.inr (by omega)
    · rintro (h | h)
      · exact Or.inl (Or.inl h)
      · rcases Nat.lt_or_ge 0 (count_calls c d) with h1 | h1
        · exact Or.inl (Or.inr h1)
        · exact Or.inr (by omega)

end

/-- The collection `extract_dependencies` returns is duplicate-free. -/
theorem extract_dependencies_nodup (n : Node) : (extract_dependencies n).Nodup :=
  dependencies_traverse_nodup n [] List.nodup_nil

/-- An identifier is in the extracted dependency collection exactly when the
subtree contains at least one call to it. -/
theorem mem_extract_dependencies (n : Node) (d : String) :
    d ∈ extract_dependencies n ↔ 0 < count_calls n d := by
  rw [extract_dependencies, mem_dependencies_traverse]
  simp

/-- Counting the rows `insert_dependencies` adds for one callee: one per
occurrence of that callee in the inserted collection. -/
theorem map_row_filter_length (ds : List String) (name : String) (cid : Option Int)
    (d : String) :
    ((ds.map (fun x => (⟨name, x, cid⟩ : DependencyEdge))).filter
      (fun r => r.dependency = d)).length = ds.count d := by
  induction ds with
  | nil => simp
  | cons x ds ih =>
    by_cases hx : x = d
    · subst hx
      simp [List.count_cons, ih]
    · simp [List.count_cons, hx, ih]

/-! ## Lemmas about the indexing pass -/

/-- `process_function_definition` leaves the `classes` table unchanged. -/
theorem process_function_definition_classes (node : Node) (db : Db) (repo_id : Int)
    (class_id : Option Int) (file_path : String) :
    (process_function_definition node db repo_id class_id file_path).classes =
      db.classes := rfl

/-- The `functions` rows `process_function_definition` adds: exactly the one
row built by `create_function_struct`, carrying the given `class_id`. -/
theorem process_function_definition_functions (node : Node) (db : Db) (repo_id : Int)
    (class_id : Option Int) (file_path : String) :
    (process_function_definition node db repo_id class_id file_path).functions =
      db.functions ++
        [{ create_function_struct node repo_id class_id file_path with
            id := some db.nextFunctionId }] := rfl

mutual

theorem class_methods_traverse_classes : ∀ (n : Node) (db : Db) (repo_id class_id : Int)
    (file_path : String),
    (class_methods_traverse n db repo_id class_id file_path).classes = db.classes
  | .mk k t a b cs, db, repo_id, class_id, file_path => by
    rw [class_methods_traverse]
    by_cases hk : k = "function_definition"
    · rw [if_pos hk, class_methods_traverse_list_classes,
        process_function_definition_classes]
    · rw [if_neg hk, class_methods_traverse_list_classes]

theorem class_methods_traverse_list_classes : ∀ (cs : NodeList) (db : Db)
    (repo_id class_id : Int) (file_path : String),
    (class_methods_traverse_list cs db repo_id class_id file_path).classes = db.classes
  | .nil, _, _, _, _ => rfl
  | .cons _ c rest, db, repo_id, class_id, file_path => by
    rw [class_methods_traverse_list, class_methods_traverse_list_classes,
      class_methods_traverse_classes]

end

mutual

theorem class_methods_traverse_functions : ∀ (n : Node) (db : Db)
    (repo_id class_id : Int) (file_path : String),
    ∃ added, (class_methods_traverse n db repo_id class_id file_path).functions =
      db.functions ++ added ∧ ∀ f ∈ added, f.class_id = some class_id
  | .mk k t a b cs, db, repo_id, class_id, file_path => by
    rw [class_methods_traverse]
    by_cases hk : k = "function_definition"
    · rw [if_pos hk]
      obtain ⟨added2, h2, hc2⟩ := class_methods_traverse_list_functions cs
        (process_function_definition (.mk k t a b cs) db repo_id (some class_id)
          file_path) repo_id class_id file_path
      refine ⟨{ create_function_struct (.mk k t a b cs) repo_id (some class_id)
          file_path with id := some db.nextFunctionId } :: added2, ?_, ?_⟩
      · rw [h2, process_function_definition_functions]
        simp
      · intro f hf
        rcases List.mem_cons.mp hf with h | h
        · subst h; rfl
        · exact hc2 f h
    · rw [if_neg hk]
      exact class_methods_traverse_list_functions cs db repo_id class_id file_path

theorem class_methods_traverse_list_functions : ∀ (cs : NodeList) (db : Db)
    (repo_id class_id : Int) (file_path : String),
    ∃ added, (class_methods_traverse_list cs db repo_id class_id file_path).functions =
      db.functions ++ added ∧ ∀ f ∈ added, f.class_id = some class_id
  | .nil, db, _, _, _ => ⟨[], by rw [class_methods_traverse_list]; simp, by simp⟩
  | .cons _ c rest, db, repo_id, class_id, file_path => by
    rw [class_methods_traverse_list]
    obtain ⟨added1, h1, hc1⟩ :=
      class_methods_traverse_functions c db repo_id class_id file_path
    obtain ⟨added2, h2, hc2⟩ := class_methods_traverse_list_functions rest
      (class_methods_traverse c db repo_id class_id file_path) repo_id class_id
      file_path
    refine ⟨added1 ++ added2, ?_, ?_⟩
    · rw [h2, h1, List.append_assoc]
    · intro f hf
      rcases List.mem_append.mp hf with h | h
      · exact hc1 f h
      · exact hc2 f h

end

theorem extract_children_loop_functions : ∀ (cs : NodeList) (db : Db) (repo_id : Int)
    (file_path : String),
    ∃ added, (extract_children_loop cs db repo_id file_path).functions =
      db.functions ++ added ∧
      (added.filter (fun f => f.class_id = none)).map (fun f => f.name) =
        (direct_function_definitions cs).map
          (fun nd => (extract_identifier nd).getD "<unknown>")
  | .nil, db, _, _ => ⟨[], by rw [extract_children_loop]; simp,
      by simp [direct_function_definitions, NodeList.toList]⟩
  | .cons tag node rest, db, repo_id, file_path => by
    rw [extract_children_loop]
    by_cases h1 : node.kind = "class_definition"
    · rw [if_pos h1]
      obtain ⟨added1, ha1, hc1⟩ := class_methods_traverse_functions node
        (insert_class db (create_class_struct node repo_id file_path)) repo_id
        db.nextClassId file_path
      obtain ⟨added2, ha2, hn2⟩ := extract_children_loop_functions rest
        (process_class_methods node
          (insert_class db (create_class_struct node repo_id file_path)) repo_id
          db.nextClassId file_path) repo_id file_path
    -- the class arm adds only rows with a `some` class id, which the
    -- `class_id = none` filter drops
      refine ⟨added1 ++ added2, ?_, ?_⟩
      · rw [ha2, process_class_methods, ha1, List.append_assoc]
        rfl
      · have hnone : added1.filter (fun f => f.class_id = none) = [] := by
          rw [List.filter_eq_nil_iff]
          intro f hf
          simp [hc1 f hf]
        rw [List.filter_append, hnone, List.nil_append, hn2]
        have : node.kind ≠ "function_definition" := by rw [h1]; decide
        simp [direct_function_definitions, NodeList.toList, this]
    · rw [if_neg h1]
      by_cases h2 : node.kind = "function_definition"
      · rw [if_pos h2]
        obtain ⟨added2, ha2, hn2⟩ := extract_children_loop_functions rest
          (process_function_definition node db repo_id none file_path) repo_id
          file_path
        refine ⟨{ create_function_struct node repo_id none file_path with
            id := some db.nextFunctionId } :: added2, ?_, ?_⟩
        · rw [ha2, process_function_definition_functions]
          simp
        · rw [List.filter_cons]
          have : ({ create_function_struct node repo_id none file_path with
              id := some db.nextFunctionId } : Function).class_id = none := rfl
          simp only [this]
          simp only [direct_function_definitions, NodeList.toList, List.map_cons,
            List.filter_cons, h2]
          simp [hn2, direct_function_definitions, create_function_struct]
      · rw [if_neg h2]
        obtain ⟨added2, ha2, hn2⟩ :=
          extract_children_loop_functions rest db repo_id file_path
        refine ⟨added2, ha2, ?_⟩
        rw [hn2]
        simp [direct_function_definitions, NodeList.toList, h2]

theorem ref_consistent_insert_class (db : Db) (c : Class) (h : ref_consistent db) :
    ref_consistent (insert_class db c) := by
  intro f hf cid hcid
  obtain ⟨cl, hcl, h1, h2⟩ := h f hf cid hcid
  exact ⟨cl, List.mem_append_left _ hcl, h1, h2⟩

theorem ref_consistent_process_function_definition (node : Node) (db : Db)
    (repo_id : Int) (class_id : Option Int) (file_path : String)
    (h : ref_consistent db)
    (hcid : ∀ x : Int, class_id = some x →
      ∃ c ∈ db.classes, c.id = some x ∧ c.repo_id = repo_id) :
    ref_consistent (process_function_definition node db repo_id class_id file_path) := by
  intro f hf cid' hcid'
  rw [process_function_definition_functions] at hf
  rcases List.mem_append.mp hf with h1 | h1
  · exact h f h1 cid' hcid'
  · have hfe : f = { create_function_struct node repo_id class_id file_path with
        id := some db.nextFunctionId } := by simpa using h1
    subst hfe
    have hcc : class_id = some cid' := hcid'
    obtain ⟨c, hc, e1, e2⟩ := hcid cid' hcc
    exact ⟨c, hc, e1, e2⟩

mutual

theorem class_methods_traverse_ref : ∀ (n : Node) (db : Db) (repo_id class_id : Int)
    (file_path : String), ref_consistent db →
    (∃ c ∈ db.classes, c.id = some class_id ∧ c.repo_id = repo_id) →
    ref_consistent (class_methods_traverse n db repo_id class_id file_path)
  | .mk k t a b cs, db, repo_id, class_id, file_path, h, hwit => by
    rw [class_methods_traverse]
    by_cases hk : k = "function_definition"
    · rw [if_pos hk]
      refine class_methods_traverse_list_ref cs _ repo_id class_id file_path ?_ ?_
      · refine ref_consistent_process_function_definition _ _ _ _ _ h ?_
        intro x hx
        obtain rfl : class_id = x := by injection hx
        exact hwit
      · rw [process_function_definition_classes]
        exact hwit
    · rw [if_neg hk]
      exact class_methods_traverse_list_ref cs db repo_id class_id file_path h hwit

theorem class_methods_traverse_list_ref : ∀ (cs : NodeList) (db : Db)
    (repo_id class_id : Int) (file_path : String), ref_consistent db →
    (∃ c ∈ db.classes, c.id = some class_id ∧ c.repo_id = repo_id) →
    ref_consistent (class_methods_traverse_list cs db repo_id class_id file_path)
  | .nil, db, _, _, _, h, _ => by rw [class_methods_traverse_list]; exact h
  | .cons _ c rest, db, repo_id, class_id, file_path, h, hwit => by
    rw [class_methods_traverse_list]
    refine class_methods_traverse_list_ref rest _ repo_id class_id file_path ?_ ?_
    · exact class_methods_traverse_ref c db repo_id class_id file_path h hwit
    · rw [class_methods_traverse_classes]
      exact hwit

end

theorem extract_children_loop_ref : ∀ (cs : NodeList) (db : Db) (repo_id : Int)
    (file_path : String), ref_consistent db →
    ref_consistent (extract_children_loop cs db repo_id file_path)
  | .nil, db, _, _, h => by rw [extract_children_loop]; exact h
  | .cons tag node rest, db, repo_id, file_path, h => by
    rw [extract_children_loop]
    by_cases h1 : node.kind = "class_definition"
    · rw [if_pos h1]
      refine extract_children_loop_ref rest _ repo_id file_path ?_
      rw [process_class_methods]
      refine class_methods_traverse_ref node _ repo_id db.nextClassId file_path
        (ref_consistent_insert_class db _ h) ?_
      refine ⟨{ create_class_struct node repo_id file_path with
          id := some db.nextClassId }, ?_, rfl, rfl⟩
      exact List.mem_append_right _ (by simp)
    · rw [if_neg h1]
      by_cases h2 : node.kind = "function_definition"
      · rw [if_pos h2]
        refine extract_children_loop_ref rest _ repo_id file_path ?_
        refine ref_consistent_process_function_definition _ _ _ _ _ h ?_
        intro x hx
        cases hx
      · rw [if_neg h2]
        exact extract_children_loop_ref rest db repo_id file_path h

theorem parse_repository_ref : ∀ (files : List (String × Node)) (db : Db)
    (repo_id : Int), ref_consistent db →
    ref_consistent (parse_repository files db repo_id) := by
  intro files
  induction files with
  | nil => intro db repo_id h; exact h
  | cons pf rest ih =>
    intro db repo_id h
    rw [parse_repository, List.foldl_cons]
    exact ih _ repo_id (extract_children_loop_ref _ db repo_id pf.1 h)

/-- The search loop of `extract_identifier` returns nothing when no direct
child has the sought kind. -/
theorem NodeList.findByKind_eq_none : ∀ (cs : NodeList) (k : String),
    (∀ tc ∈ cs.toList, ¬ tc.2.kind = k) → cs.findByKind k = none
  | .nil, _, _ => rfl
  | .cons tag c rest, k, h => by
    rw [NodeList.findByKind]
    rw [if_neg (h (tag, c) (by simp [NodeList.toList]))]
    exact NodeList.findByKind_eq_none rest k
      (fun tc htc => h tc (by simp [NodeList.toList, htc]))

/-- The rows `insert_dependencies` appends to the edge table. -/
theorem insert_dependencies_deps (db : Db) (function_name : String)
    (class_id : Option Int) (dependencies : List String) :
    (insert_dependencies db function_name class_id dependencies).deps =
      db.deps ++ dependencies.map (fun d => ⟨function_name, d, class_id⟩) := rfl

/-! ## Claims -/

/-- C1: for every store state and every entry point whose call graph
contains a cycle (including a function that directly or transitively calls
itself), flow reconstruction terminates — `build_flow` at its caller's
fuel returns a result rather than exhausting the stack — and each
`(function_name, class_id)` pair is emitted at most once (the emitted key
list has no duplicate), while the entry function's pair is emitted, hence
emitted exactly once. -/
theorem c1_cyclic_flow_terminates_unique (db : Db) (name : String) (cid : Option Int)
    (_hcyc : has_cycle_from db (name, cid)) :
    ∃ st', build_flow_top db name cid = some st' ∧
      (st'.entries.map FlowEntry.pair).Nodup ∧
      (name, cid) ∈ st'.entries.map FlowEntry.pair := by
  have hsome : (build_flow_top db name cid).isSome := by
    rw [build_flow_top]
    refine build_flow_isSome db _ name cid 0 _ (Or.inr ?_)
    have h1 : (dep_pairs db \
        ((name, cid) :: (⟨[], "", []⟩ : FlowState).visited).toFinset).card ≤
          (dep_pairs db).card :=
      Finset.card_le_card Finset.sdiff_subset
    rw [build_flow_fuel]
    omega
  obtain ⟨st', hst'⟩ := Option.isSome_iff_exists.mp hsome
  have hst2 := hst'
  rw [build_flow_top, build_flow_fuel] at hst2
  obtain ⟨new, he, hf, hv, hn, hd⟩ :=
    build_flow_shape db ((dep_pairs db).card + 1) name cid 0 ⟨[], "", []⟩ st' hst2
  have hent : st'.entries = new := by simpa using he
  have hnodup : (st'.entries.map FlowEntry.pair).Nodup := by rw [hent]; exact hn
  refine ⟨st', hst', hnodup, ?_⟩
  have hmem : (⟨name, cid, 0,
      (get_function_description db name cid).getD "No description available"⟩ :
        FlowEntry) ∈ st'.entries :=
    build_flow_entry_mem db ((dep_pairs db).card) name cid 0 ⟨[], "", []⟩ st' hst2
      (by simp)
  exact List.mem_map.mpr ⟨_, hmem, rfl⟩

/-- Witness for C1: the store whose single edge makes `main` call itself
has a cycle at `("main", none)`, and reconstruction there terminates with
`main` emitted exactly once. -/
theorem c1_witness :
    has_cycle_from cyc_db ("main", none) ∧
    (∃ st', build_flow_top cyc_db "main" none = some st' ∧
      (st'.entries.map FlowEntry.pair).Nodup ∧
      ("main", none) ∈ st'.entries.map FlowEntry.pair) := by
  have hcyc : has_cycle_from cyc_db ("main", none) :=
    ⟨("main", none), Relation.ReflTransGen.refl,
      Relation.TransGen.single ⟨⟨"main", "main", none⟩, by simp [cyc_db], rfl, rfl, rfl⟩⟩
  exact ⟨hcyc, c1_cyclic_flow_terminates_unique cyc_db "main" none hcyc⟩

/-- C2: each unique extracted callee is persisted as one `DependencyEdge`
row keyed by the enclosing function's `(name, class_id)`.  This holds of
the store layer (`insert_dependencies`, db.rs 110–118) composed with
`process_function_definition` as the signature demands — but the source
call site (parser.rs line 71) omits the `class_id` argument that
`insert_dependencies` requires, so the crate does not compile and the
claimed keying is never performed by the code as written; see the comment
on `process_function_definition`. -/
theorem c2_edges_keyed_by_name_and_class (node : Node) (db : Db) (repo_id : Int)
    (class_id : Option Int) (file_path : String) :
    (process_function_definition node db repo_id class_id file_path).deps =
      db.deps ++ (extract_dependencies node).map
        (fun d => ⟨(create_function_struct node repo_id class_id file_path).name,
          d, class_id⟩) := rfl

/-- C3: a function body with two or more syntactically identical calls to
the same plain-identifier callee yields a duplicate-free extracted
collection and exactly one persisted edge row for that callee. -/
theorem c3_duplicate_calls_one_edge_row (db : Db) (node : Node) (name : String)
    (cid : Option Int) (d : String) (hcalls : 2 ≤ count_calls node d) :
    (extract_dependencies node).Nodup ∧
    (((insert_dependencies db name cid (extract_dependencies node)).deps.drop
        db.deps.length).filter (fun r => r.dependency = d)).length = 1 := by
  refine ⟨extract_dependencies_nodup node, ?_⟩
  rw [insert_dependencies_deps, List.drop_left, map_row_filter_length]
  exact List.count_eq_one_of_mem (extract_dependencies_nodup node)
    ((mem_extract_dependencies node d).mpr (by omega))

/-- Witness for C3: a function with two identical calls `g()` produces one
edge row for `g`. -/
theorem c3_witness :
    2 ≤ count_calls two_calls_fn "g" ∧
    ((extract_dependencies two_calls_fn).Nodup ∧
      (((insert_dependencies Db.empty "f" none
          (extract_dependencies two_calls_fn)).deps.drop
            Db.empty.deps.length).filter (fun r => r.dependency = "g")).length = 1) :=
  ⟨by decide, c3_duplicate_calls_one_edge_row Db.empty two_calls_fn "f" none "g" (by decide)⟩

/-- C4: when no `functions` row and no edge row matches the entry
`(name, class_id)`, reconstruction succeeds and emits exactly one item for
the entry with the placeholder description, surfacing no error. -/
theorem c4_absent_entry_single_placeholder (db : Db) (name : String) (cid : Option Int)
    (hfun : ∀ f ∈ db.functions, ¬(f.name = name ∧ f.class_id = cid))
    (hdep : ∀ r ∈ db.deps, ¬(r.function_name = name ∧ r.class_id = cid)) :
    build_flow_top db name cid =
      some ⟨[(name, cid)], flow_line name 0 "No description available",
        [⟨name, cid, 0, "No description available"⟩]⟩ := by
  have hdesc : get_function_description db name cid = none := by
    rw [get_function_description, List.find?_eq_none.mpr]
    · rfl
    · intro f hfm
      simpa using hfun f hfm
  have hdeps : get_dependencies db name cid = [] := by
    rw [get_dependencies, List.filter_eq_nil_iff.mpr]
    · rfl
    · intro r hr
      simpa using hdep r hr
  rw [build_flow_top, build_flow_fuel, build_flow]
  simp [hdesc, hdeps, build_flow_deps]

/-- Witness for C4: the empty store with entry `("main", none)`. -/
theorem c4_witness :
    (∀ f ∈ Db.empty.functions, ¬(f.name = "main" ∧ f.class_id = (none : Option Int))) ∧
    (∀ r ∈ Db.empty.deps,
      ¬(r.function_name = "main" ∧ r.class_id = (none : Option Int))) ∧
    build_flow_top Db.empty "main" none =
      some ⟨[("main", none)], flow_line "main" 0 "No description available",
        [⟨"main", none, 0, "No description available"⟩]⟩ :=
  ⟨by simp [Db.empty], by simp [Db.empty],
    c4_absent_entry_single_placeholder Db.empty "main" none (by simp [Db.empty])
      (by simp [Db.empty])⟩

/-- C5: for every store state and entry point, flow reconstruction returns
a result, never an error: failed docstring lookups fall back to the
placeholder inside `build_flow`, and a dependency lookup that matches
nothing yields the empty list rather than a failure. -/
theorem c5_flow_never_errors (db : Db) (name : String) (cid : Option Int) :
    ∃ st', build_flow_top db name cid = some st' := by
  apply Option.isSome_iff_exists.mp
  rw [build_flow_top]
  refine build_flow_isSome db _ name cid 0 _ (Or.inr ?_)
  have h1 : (dep_pairs db \
      ((name, cid) :: (⟨[], "", []⟩ : FlowState).visited).toFinset).card ≤
        (dep_pairs db).card :=
    Finset.card_le_card Finset.sdiff_subset
  rw [build_flow_fuel]
  omega

/-- C6 counterexample: in a module whose only top-level function `outer`
contains a nested function definition `inner` outside any class subtree,
indexing records no `Function` row named `inner` at all — refuting the
claim that a closure is recorded like a module-level function. -/
theorem c6_counterexample :
    (extract_classes_and_functions closure_module Db.empty 1 "a.py").functions.map
      (fun f => f.name) = ["outer"] ∧
    ((extract_classes_and_functions closure_module Db.empty 1 "a.py").functions.filter
      (fun f => f.name = "inner")) = [] := by
  constructor
  · rfl
  · rfl

/-- C6 amended: a function definition nested inside another function
definition and not inside a class subtree is not recorded at all: the
`Function` rows with `class_id = none` added by indexing a module are
exactly one per direct `function_definition` child of the module root
(rows from class subtrees all carry the class's id). -/
theorem c6_closures_not_recorded (root : Node) (db : Db) (repo_id : Int)
    (file_path : String) :
    ∃ added, (extract_classes_and_functions root db repo_id file_path).functions =
      db.functions ++ added ∧
      (added.filter (fun f => f.class_id = none)).map (fun f => f.name) =
        (direct_function_definitions root.children).map
          (fun nd => (extract_identifier nd).getD "<unknown>") := by
  rw [extract_classes_and_functions]
  exact extract_children_loop_functions root.children db repo_id file_path

/-- C7: the constructor parameter text `(self, x: int, y: str)` classifies
attributes as `x: int` and `y: str`, serialized `"x: int, y: str"` (the
leading `self` is stripped), and an unannotated parameter is typed
`unknown`. -/
theorem c7_constructor_attributes :
    extract_attributes attrs_class = some "x: int, y: str" ∧
    extract_attributes attrs_class_unannotated = some "z: unknown" := by
  constructor
  · rfl
  · rfl

/-- C8: indexing preserves referential consistency — after parsing any
repository into a consistent store, every `Function` row with a class id
refers to an existing `Class` row of the same repository. -/
theorem c8_referential_consistency (files : List (String × Node)) (db : Db)
    (repo_id : Int) (h : ref_consistent db) :
    ref_consistent (parse_repository files db repo_id) :=
  parse_repository_ref files db repo_id h

/-- Witness for C8: indexing a one-class one-method module into the empty
store. -/
theorem c8_witness :
    ref_consistent Db.empty ∧
    ref_consistent (parse_repository [("a.py", method_module)] Db.empty 1) := by
  have h0 : ref_consistent Db.empty := by
    intro f hf
    exact absurd hf (List.not_mem_nil f)
  exact ⟨h0, c8_referential_consistency [("a.py", method_module)] Db.empty 1 h0⟩

/-- C9 counterexample: at the empty store with entry `main` the produced
text wraps the function name in backticks, so the output is not built from
lines of the claimed form `<indent>- Function: <name>`. -/
theorem c9_counterexample :
    build_flow_top Db.empty "main" none =
      some ⟨[("main", none)],
        "- Function: `main`\n  - Purpose: No description available\n",
        [⟨"main", none, 0, "No description available"⟩]⟩ ∧
    "- Function: `main`\n  - Purpose: No description available\n" ≠
      claimed_flow_text [⟨"main", none, 0, "No description available"⟩] := by
  constructor
  · rfl
  · decide

/-- C9 amended: the reconstructed output consists, per visited function, of
a line `<indent>- Function: \x60<name>\x60` — the name wrapped in backticks
— followed by `<indent>  - Purpose: <docstring-or-placeholder>`, with two
spaces of indent per call-depth level (`flow_line` applied to each emitted
item in order). -/
theorem c9_flow_format (db : Db) (name : String) (cid : Option Int) :
    ∃ st', build_flow_top db name cid = some st' ∧
      st'.flow = flow_of st'.entries := by
  have hsome : (build_flow_top db name cid).isSome := by
    rw [build_flow_top]
    refine build_flow_isSome db _ name cid 0 _ (Or.inr ?_)
    have h1 : (dep_pairs db \
        ((name, cid) :: (⟨[], "", []⟩ : FlowState).visited).toFinset).card ≤
          (dep_pairs db).card :=
      Finset.card_le_card Finset.sdiff_subset
    rw [build_flow_fuel]
    omega
  obtain ⟨st', hst'⟩ := Option.isSome_iff_exists.mp hsome
  have hst2 := hst'
  rw [build_flow_top] at hst2
  obtain ⟨new, he, hf, _, _, _⟩ :=
    build_flow_shape db (build_flow_fuel db) name cid 0 ⟨[], "", []⟩ st' hst2
  refine ⟨st', hst', ?_⟩
  rw [hf, he]
  simp

/-- C10: a function-definition node with no identifier among its direct
children is recorded under the sentinel name `<unknown>`; the identifier
search never descends below direct children. -/
theorem c10_nameless_function_sentinel (node : Node) (repo_id : Int)
    (class_id : Option Int) (file_path : String)
    (h : ∀ tc ∈ node.children.toList, ¬ tc.2.kind = "identifier") :
    (create_function_struct node repo_id class_id file_path).name = "<unknown>" := by
  have hid : extract_identifier node = none := by
    rw [extract_identifier, NodeList.findByKind_eq_none node.children "identifier" h]
    rfl
  simp [create_function_struct, hid]

/-- Witness for C10: a function node whose only direct child is a block
containing a nested identifier is still named `<unknown>`. -/
theorem c10_witness :
    (∀ tc ∈ nameless_fn.children.toList, ¬ tc.2.kind = "identifier") ∧
    (create_function_struct nameless_fn 1 none "a.py").name = "<unknown>" :=
  ⟨by decide, c10_nameless_function_sentinel nameless_fn 1 none "a.py" (by decide)⟩

end Autocontain
